import Mathlib

/-!
Shallow embedding of `gsheet_utils/reader/reader.py` (column-address codec,
range parsing, column-index resolution, value conversion, row
materialization) and proofs of the specification's claims about it.

Conventions of the embedding:
* Python strings are `List Char`; the Python value `None` is `Option.none`
  (a raw cell is `Option (List Char)`).
* Python exceptions are `PyErr` values carrying the exception class name and
  the message; fallible functions return `Except PyErr _`.
* Machine integers are `Int`/`Nat` (Python ints are unbounded, so no
  wrap-around modelling is needed).
* `str.upper`/`str.isalpha` are modelled on ASCII; every input the claims
  quantify over (Latin letters, digits, punctuation) is ASCII, where the
  Python Unicode versions agree with the ASCII ones.
-/

namespace GSheet

/-- A Python exception: class name (e.g. `"ValueError"`, `"KeyError"`) and message. -/
structure PyErr where
  cls : List Char
  msg : List Char
  deriving DecidableEq

deriving instance DecidableEq for Except

/-- Python `str.upper()` restricted to one character: ASCII lowercase letters
map to uppercase, everything else is unchanged. -/
def pyUpperChar (c : Char) : Char :=
  if 97 ≤ c.toNat ∧ c.toNat ≤ 122 then Char.ofNat (c.toNat - 32) else c

/-- An ASCII Latin letter (upper or lower case), the alphabet of valid column labels. -/
def isLatinLetter (c : Char) : Prop :=
  (65 ≤ c.toNat ∧ c.toNat ≤ 90) ∨ (97 ≤ c.toNat ∧ c.toNat ≤ 122)

instance (c : Char) : Decidable (isLatinLetter c) := by
  unfold isLatinLetter; infer_instance

/-- `ord(char) - ord('A') + 1` from `_col_letter_to_index`. -/
def letterOrd (c : Char) : Int :=
  (c.toNat : Int) - 65 + 1

/-- Embeds `_col_letter_to_index` (reader.py lines 43-49):
`letter = letter.upper(); result = 0; for char in letter: result = result*26 + (ord(char)-ord('A')+1); return result - 1`.
The Python function performs no validation and raises no exception. -/
def _col_letter_to_index (letter : List Char) : Int :=
  (letter.foldl (fun result c => result * 26 + letterOrd (pyUpperChar c)) 0) - 1

/-- The `while index > 0` loop of `_index_to_col_letter`, carrying the string
built so far (each iteration prepends `chr(index % 26 + ord('A'))` after the
`index -= 1`; `index //= 26` feeds the next iteration). The argument is the
current (non-negative) value of `index`. -/
def i2lLoop : Nat → List Char → List Char
  | 0, acc => acc
  | n + 1, acc => i2lLoop (n / 26) (Char.ofNat (n % 26 + 65) :: acc)
termination_by n _ => n
decreasing_by exact Nat.lt_succ_of_le (Nat.div_le_self n 26)

/-- Embeds `_index_to_col_letter` (reader.py lines 52-60):
`index += 1; result = ""; while index > 0: index -= 1; result = chr(index%26 + ord('A')) + result; index //= 26; return result`.
For `index + 1 ≤ 0` the loop body never runs (`Int.toNat` clamps at 0),
matching Python, where the `while` guard is immediately false. -/
def _index_to_col_letter (index : Int) : List Char :=
  i2lLoop (index + 1).toNat []

/-! ## Range descriptor parsing (reader.py lines 63-78) -/

/-- Python `str.split(sep)`: splits at every occurrence of `sep`; always
returns a non-empty list (splitting the empty string gives `[""]`). -/
def pySplit (sep : Char) : List Char → List (List Char)
  | [] => [[]]
  | c :: cs =>
    match pySplit sep cs with
    | [] => [[]]
    | h :: t => if c = sep then [] :: h :: t else (c :: h) :: t

/-- Python `''.join(c for c in s if c.isalpha())`, on the ASCII fragment:
keeps every letter character, wherever it occurs in the string. -/
def filterAlpha (s : List Char) : List Char :=
  s.filter fun c => decide (isLatinLetter c)

/-- Embeds `_get_column_range_info` (reader.py lines 63-78): takes the text
after the last `'!'` (`range_name.split('!')[-1]`; `pySplit` never returns
`[]`, so the `getLastD` default is never used), then if a `':'` is present
unpacks the two sides (`start_col, end_col = range_part.split(':')` raises a
`ValueError` when the split does not have exactly two parts) and keeps only
their letter characters; otherwise the single extracted column is both start
and end. -/
def _get_column_range_info (range_name : List Char) :
    Except PyErr (List Char × List Char) :=
  let range_part := if '!' ∈ range_name then (pySplit '!' range_name).getLastD []
                    else range_name
  if ':' ∈ range_part then
    match pySplit ':' range_part with
    | [s, e] => .ok (filterAlpha s, filterAlpha e)
    | _ => .error ⟨"ValueError".toList, "too many values to unpack (expected 2)".toList⟩
  else .ok (filterAlpha range_part, filterAlpha range_part)

/-- Python `range(a, b)` over (unbounded) ints, as a list. -/
def pyRange (a b : Int) : List Int :=
  (List.range (b - a).toNat).map fun i => a + i

/-- Embeds `_get_columns_in_range` (reader.py lines 81-88): the labels of all
columns with offsets in `range(start_idx, end_idx + 1)`. -/
def _get_columns_in_range (start_col end_col : List Char) : List (List Char) :=
  (pyRange (_col_letter_to_index start_col) (_col_letter_to_index end_col + 1)).map
    _index_to_col_letter

/-! ## Value conversion (reader.py lines 11-40) -/

/-- A calendar date as produced by `datetime.date`. -/
structure PyDate where
  year : Nat
  month : Nat
  day : Nat
  deriving DecidableEq

/-- Gregorian leap-year rule used by `datetime`. -/
def isLeapYear (y : Nat) : Bool :=
  y % 4 = 0 ∧ (y % 100 ≠ 0 ∨ y % 400 = 0)

/-- Number of days of month `m` in year `y` (as in `datetime`). -/
def daysInMonth (y m : Nat) : Nat :=
  if m = 2 then (if isLeapYear y then 29 else 28)
  else if m = 4 ∨ m = 6 ∨ m = 9 ∨ m = 11 then 30
  else 31

/-- Validation performed by the `datetime.datetime(year, month, day)`
constructor: `MINYEAR = 1 ≤ year ≤ 9999 = MAXYEAR`, `1 ≤ month ≤ 12`,
`1 ≤ day ≤ days_in_month(year, month)`; out of range raises `ValueError`
(modelled as `none`, which `_parse_date` turns into trying the next format). -/
def mkPyDate (y m d : Nat) : Option PyDate :=
  if 1 ≤ y ∧ y ≤ 9999 ∧ 1 ≤ m ∧ m ≤ 12 ∧ 1 ≤ d ∧ d ≤ daysInMonth y m then
    some ⟨y, m, d⟩
  else Option.none

/-- Numeric value of an ASCII digit character. -/
def digitVal (c : Char) : Nat := c.toNat - 48

/-- CPython `strptime` directive `%Y`, whose regex is `\d\d\d\d`: exactly four
digits. Returns the value and the unconsumed rest. -/
def matchY : List Char → Option (Nat × List Char)
  | a :: b :: c :: d :: rest =>
    if a.isDigit ∧ b.isDigit ∧ c.isDigit ∧ d.isDigit then
      some (digitVal a * 1000 + digitVal b * 100 + digitVal c * 10 + digitVal d, rest)
    else Option.none
  | _ => Option.none

/-- CPython `strptime` directive `%m`, regex `1[0-2]|0[1-9]|[1-9]`, with the
regex engine's leftmost-alternative preference. In the three date formats used
here every `%m`/`%d` is followed by a literal separator or the end of the
pattern, and all alternatives consume only digit characters, so a failed
two-digit match can never be rescued by backtracking into a one-digit match
(the second digit would then face the non-digit separator); matching the
alternatives greedily in order is therefore exact. -/
def matchM : List Char → Option (Nat × List Char)
  | a :: b :: rest =>
    if a = '1' ∧ '0' ≤ b ∧ b ≤ '2' then some (10 + digitVal b, rest)
    else if a = '0' ∧ '1' ≤ b ∧ b ≤ '9' then some (digitVal b, rest)
    else if '1' ≤ a ∧ a ≤ '9' then some (digitVal a, b :: rest)
    else Option.none
  | [a] => if '1' ≤ a ∧ a ≤ '9' then some (digitVal a, []) else Option.none
  | [] => Option.none

/-- CPython `strptime` directive `%d`, regex `3[01]|[12]\d|0[1-9]|[1-9]`
(same backtracking-free argument as for `%m`). -/
def matchD : List Char → Option (Nat × List Char)
  | a :: b :: rest =>
    if a = '3' ∧ (b = '0' ∨ b = '1') then some (30 + digitVal b, rest)
    else if (a = '1' ∨ a = '2') ∧ b.isDigit then some (digitVal a * 10 + digitVal b, rest)
    else if a = '0' ∧ '1' ≤ b ∧ b ≤ '9' then some (digitVal b, rest)
    else if '1' ≤ a ∧ a ≤ '9' then some (digitVal a, b :: rest)
    else Option.none
  | [a] => if '1' ≤ a ∧ a ≤ '9' then some (digitVal a, []) else Option.none
  | [] => Option.none

/-- A literal character of a `strptime` format string. -/
def matchLit (lit : Char) : List Char → Option (List Char)
  | c :: rest => if c = lit then some rest else Option.none
  | [] => Option.none

/-- Full-string match of `"%Y<sep>%m<sep>%d"`; the trailing-rest check models
`strptime`'s "unconverted data remains" error. -/
def matchYMD (sep : Char) (s : List Char) : Option (Nat × Nat × Nat) := do
  let (y, s1) ← matchY s
  let s2 ← matchLit sep s1
  let (m, s3) ← matchM s2
  let s4 ← matchLit sep s3
  let (d, s5) ← matchD s4
  if s5 = [] then pure (y, m, d) else Option.none

/-- Full-string match of `"%d.%m.%Y"`. -/
def matchDMY (s : List Char) : Option (Nat × Nat × Nat) := do
  let (d, s1) ← matchD s
  let s2 ← matchLit '.' s1
  let (m, s3) ← matchM s2
  let s4 ← matchLit '.' s3
  let (y, s5) ← matchY s4
  if s5 = [] then pure (y, m, d) else Option.none

/-- One `datetime.datetime.strptime(value, "%Y<sep>%m<sep>%d").date()` attempt. -/
def tryYMD (sep : Char) (v : List Char) : Option PyDate :=
  (matchYMD sep v).bind fun t => mkPyDate t.1 t.2.1 t.2.2

/-- One `datetime.datetime.strptime(value, "%d.%m.%Y").date()` attempt. -/
def tryDMY (v : List Char) : Option PyDate :=
  (matchDMY v).bind fun t => mkPyDate t.1 t.2.1 t.2.2

/-- Embeds `_parse_date` (reader.py lines 11-22): tries the formats
`"%Y-%m-%d"`, `"%Y.%m.%d"`, `"%d.%m.%Y"` in order, returning the first
successful parse; raises `ValueError` naming the raw value if none matches. -/
def _parse_date (value : List Char) : Except PyErr PyDate :=
  match tryYMD '-' value <|> tryYMD '.' value <|> tryDMY value with
  | some d => .ok d
  | Option.none =>
    .error ⟨"ValueError".toList,
            "Не удалось распознать дату: '".toList ++ value ++ "'".toList⟩

/-- Python `str.strip()` on the ASCII fragment: removes leading and trailing
whitespace. -/
def pyStrip (s : List Char) : List Char :=
  ((s.dropWhile Char.isWhitespace).reverse.dropWhile Char.isWhitespace).reverse

/-- Maximal-run continuation for a digit run that may contain single
underscores between digits (Python numeric-literal syntax); returns the
unconsumed rest. -/
def eatMore : List Char → List Char
  | [] => []
  | '_' :: d :: rest => if d.isDigit then eatMore rest else '_' :: d :: rest
  | c :: rest => if c.isDigit then eatMore rest else c :: rest

/-- Consumes a non-empty digit run (underscores allowed between digits);
`none` if the input does not start with a digit. -/
def eatDigitsUnd : List Char → Option (List Char)
  | c :: rest => if c.isDigit then some (eatMore rest) else Option.none
  | [] => Option.none

/-- Digit run with underscores evaluated to its numeric value (`none` on any
malformed run or leftover input). Used by `int()`. -/
def pyDigitsUnd : List Char → Option Nat
  | c :: rest => if c.isDigit then pyDigitsUndGo (digitVal c) rest else Option.none
  | [] => Option.none
where
  pyDigitsUndGo (acc : Nat) : List Char → Option Nat
  | [] => some acc
  | '_' :: d :: rest =>
    if d.isDigit then pyDigitsUndGo (acc * 10 + digitVal d) rest else Option.none
  | c :: rest => if c.isDigit then pyDigitsUndGo (acc * 10 + digitVal c) rest else Option.none

/-- Exponent digits of a float literal: an optional sign then a digit run
consuming the whole rest. -/
def floatExpDigits (r : List Char) : Bool :=
  match eatDigitsUnd r with
  | some [] => true
  | _ => false

/-- Optional exponent part of a float literal (`e`/`E`, optional sign, digits),
which must consume the whole rest of the string. -/
def floatExpPart : List Char → Bool
  | [] => true
  | c :: r =>
    if c = 'e' ∨ c = 'E' then
      match r with
      | s :: r' => if s = '+' ∨ s = '-' then floatExpDigits r' else floatExpDigits r
      | [] => false
    else false

/-- Fractional part after the `'.'` of a float literal (digits optional),
followed by an optional exponent. -/
def floatFrac (r : List Char) : Bool :=
  match eatDigitsUnd r with
  | some r3 => floatExpPart r3
  | Option.none => floatExpPart r

/-- Unsigned body of a Python float literal: `digits [. [digits]] [exp]` or
`. digits [exp]`. -/
def pyFloatBody (s : List Char) : Bool :=
  match eatDigitsUnd s with
  | some rest =>
    match rest with
    | '.' :: r2 => floatFrac r2
    | _ => floatExpPart rest
  | Option.none =>
    match s with
    | '.' :: r2 =>
      match eatDigitsUnd r2 with
      | some r3 => floatExpPart r3
      | Option.none => false
    | _ => false

/-- ASCII lower-casing of one character (for `inf`/`nan` recognition). -/
def asciiLower (c : Char) : Char :=
  if 65 ≤ c.toNat ∧ c.toNat ≤ 90 then Char.ofNat (c.toNat + 32) else c

/-- Case-insensitive `inf`/`infinity`/`nan` body of a Python float literal. -/
def pyFloatNamed (s : List Char) : Bool :=
  s.map asciiLower = "inf".toList ∨ s.map asciiLower = "infinity".toList ∨
    s.map asciiLower = "nan".toList

/-- A converted cell value: Python `None`, `str`, `int`, `float` or
`datetime.date`. A `real` carries the accepted literal (after whitespace
stripping) rather than an IEEE-754 double: floating-point values are not
modelled, and no claim depends on them. -/
inductive Value where
  | none
  | str (s : List Char)
  | int (n : Int)
  | real (lit : List Char)
  | date (d : PyDate)
  deriving DecidableEq

/-- Embeds the `int` caster (`_TYPE_CASTERS["int"]`): Python `int(value)` —
optional surrounding whitespace, optional sign, base-10 digits (underscores
allowed between digits); anything else raises `ValueError`. (Non-ASCII digits
accepted by CPython are outside the modelled alphabet.) -/
def pyIntCast (value : List Char) : Except PyErr Value :=
  let t := pyStrip value
  let p : Int × List Char :=
    match t with
    | '+' :: r => (1, r)
    | '-' :: r => (-1, r)
    | r => (1, r)
  match pyDigitsUnd p.2 with
  | some n => .ok (.int (p.1 * n))
  | Option.none =>
    .error ⟨"ValueError".toList,
            "invalid literal for int() with base 10: '".toList ++ value ++ "'".toList⟩

/-- Embeds the `float` caster (`_TYPE_CASTERS["float"]`): Python
`float(value)` — optional surrounding whitespace, optional sign, then a
numeric literal body or `inf`/`infinity`/`nan`. On success the stripped
literal is recorded (the IEEE value is not modelled). -/
def pyFloatCast (value : List Char) : Except PyErr Value :=
  let t := pyStrip value
  let body : List Char :=
    match t with
    | '+' :: r => r
    | '-' :: r => r
    | r => r
  if pyFloatBody body ∨ pyFloatNamed body then .ok (.real t)
  else
    .error ⟨"ValueError".toList,
            "could not convert string to float: '".toList ++ value ++ "'".toList⟩

/-- The `str` caster: Python `str` applied to a string is the identity. -/
def pyStrCast (value : List Char) : Except PyErr Value :=
  .ok (.str value)

/-- The `date` caster: `_parse_date`. -/
def pyDateCast (value : List Char) : Except PyErr Value :=
  match _parse_date value with
  | .ok d => .ok (.date d)
  | .error e => .error e

/-- Embeds the fixed dictionary `_TYPE_CASTERS` (reader.py lines 26-31);
`none` models the `KeyError` a lookup with any other key raises. -/
def _TYPE_CASTERS (dtype : List Char) : Option (List Char → Except PyErr Value) :=
  if dtype = "str".toList then some pyStrCast
  else if dtype = "int".toList then some pyIntCast
  else if dtype = "float".toList then some pyFloatCast
  else if dtype = "date".toList then some pyDateCast
  else Option.none

/-- Message of the `ValueError` raised by `_convert_value`:
`f"Ошибка преобразования '{value}' в {dtype}: {e}"` where `e` is the caught
exception rendered by `str()`. -/
def convErrMsg (value dtype inner : List Char) : List Char :=
  "Ошибка преобразования '".toList ++ value ++ "' в ".toList ++ dtype ++
    ": ".toList ++ inner

/-- Embeds `_convert_value` (reader.py lines 34-40). The null check
`value in ("", None)` (equality against `""` and `None`) short-circuits before
the caster dictionary is touched. Any exception escaping
`_TYPE_CASTERS[dtype](value)` — incl. the `KeyError` of an unknown `dtype`,
whose `str()` rendering is the quoted key — is caught and re-raised as a
`ValueError` built by `convErrMsg`. -/
def _convert_value (value : Option (List Char)) (dtype : List Char) :
    Except PyErr Value :=
  if value = some [] ∨ value = Option.none then .ok .none
  else
    match value with
    | Option.none => .ok .none
    | some v =>
      match _TYPE_CASTERS dtype with
      | Option.none =>
        .error ⟨"ValueError".toList,
                convErrMsg v dtype ("'".toList ++ dtype ++ "'".toList)⟩
      | some caster =>
        match caster v with
        | .ok x => .ok x
        | .error e => .error ⟨"ValueError".toList, convErrMsg v dtype e.msg⟩

/-! ## Row materialization (reader.py lines 114-163)

The network fetch (lines 131-135) is the external collaborator: its result
`values = result.get("values", [])` — a list of raw rows, each a list of cell
strings — is a parameter of the embedded `read_as_tuples`. `dict_columns` is
an insertion-ordered list of (column label, type tag) pairs, the order being
Python's dict iteration order. -/

/-- Python `list.index(x)` guarded by `x in list` (reader.py lines 146-149):
the first index of `x`, or `None` when absent. -/
def pyIndexOf (l : List (List Char)) (x : List Char) : Option Nat :=
  match l with
  | [] => Option.none
  | h :: t => if h = x then some 0 else (pyIndexOf t x).map (· + 1)

/-- Python dict lookup on an association list (first matching key; the dicts
built here never hold duplicate keys). -/
def pyDictLookup (m : List (List Char × Option Nat)) (k : List Char) :
    Option (Option Nat) :=
  match m with
  | [] => Option.none
  | (k', v) :: t => if k' = k then some v else pyDictLookup t k

/-- Embeds the construction of `column_to_data_index` (reader.py lines
140-149): parse the range, enumerate the spanned columns, and map every
requested column to its first index in the span, or `None` when absent. -/
def resolveOffsets (range_name : List Char)
    (dict_columns : List (List Char × List Char)) :
    Except PyErr (List (List Char × Option Nat)) :=
  match _get_column_range_info range_name with
  | .error e => .error e
  | .ok (start_col, end_col) =>
    let all_range_columns := _get_columns_in_range start_col end_col
    .ok (dict_columns.map fun p => (p.1, pyIndexOf all_range_columns p.1))

/-- Embeds the cell selection of reader.py lines 155-159: `val = row[data_idx]`
when the column resolved and the offset is inside the row, else `val = None`.
(The key is always present in `column_to_data_index`, which is built from the
same `dict_columns` keys.) -/
def rowCell (column_to_data_index : List (List Char × Option Nat))
    (row : List (List Char)) (col : List Char) : Option (List Char) :=
  match pyDictLookup column_to_data_index col with
  | some (some data_idx) =>
    if data_idx < row.length then some (row.getD data_idx []) else Option.none
  | _ => Option.none

/-- Embeds the inner loop of reader.py lines 153-160: one converted value per
`dict_columns` entry, in order; the first conversion error aborts the read. -/
def convertRow (column_to_data_index : List (List Char × Option Nat))
    (dict_columns : List (List Char × List Char))
    (row : List (List Char)) : Except PyErr (List Value) :=
  match dict_columns with
  | [] => .ok []
  | (col, dtype) :: rest =>
    match _convert_value (rowCell column_to_data_index row col) dtype with
    | .error e => .error e
    | .ok v =>
      match convertRow column_to_data_index rest row with
      | .error e => .error e
      | .ok vs => .ok (v :: vs)

/-- Embeds the outer loop of reader.py lines 151-161 over `values[1:]`: one
tuple per raw row, in row order. -/
def materializeRows (column_to_data_index : List (List Char × Option Nat))
    (dict_columns : List (List Char × List Char)) :
    List (List (List Char)) → Except PyErr (List (List Value))
  | [] => .ok []
  | row :: rest =>
    match convertRow column_to_data_index dict_columns row with
    | .error e => .error e
    | .ok t =>
      match materializeRows column_to_data_index dict_columns rest with
      | .error e => .error e
      | .ok ts => .ok (t :: ts)

/-- Embeds `read_as_tuples` (reader.py lines 114-163) downstream of the fetch:
empty fetched result short-circuits to `[]`; otherwise the offsets are
resolved once and every row after the first (the header, `values[1:]`) is
materialized. -/
def read_as_tuples (range_name : List Char)
    (dict_columns : List (List Char × List Char))
    (values : List (List (List Char))) : Except PyErr (List (List Value)) :=
  if values = [] then .ok []
  else
    match resolveOffsets range_name dict_columns with
    | .error e => .error e
    | .ok column_to_data_index =>
      materializeRows column_to_data_index dict_columns values.tail

/-! ## Proof-support definitions -/

/-- An uppercase ASCII letter: the alphabet `offsetToLabel` produces. -/
def isUpperLetter (c : Char) : Prop :=
  65 ≤ c.toNat ∧ c.toNat ≤ 90

instance (c : Char) : Decidable (isUpperLetter c) := by
  unfold isUpperLetter; infer_instance

/-- Bijective base-26 value of an uppercase label (`A = 1 … Z = 26`),
accumulated on top of `r` — the `Nat` shadow of `_col_letter_to_index`'s
fold, used to reason about the codec without `Int` coercions. -/
def colValNat (r : Nat) (t : List Char) : Nat :=
  t.foldl (fun racc c => racc * 26 + (c.toNat - 64)) r

end GSheet

namespace GSheet

/-! # Theorems

## Generic facts about the embedded helpers -/

/-- `Char.ofNat` of a scalar value below the surrogate range decodes back. -/
theorem toNat_ofNat_lt {n : Nat} (h : n < 55296) : (Char.ofNat n).toNat = n := by
  unfold Char.ofNat
  rw [dif_pos (Or.inl h)]
  rfl

theorem pyUpperChar_of_upper {c : Char} (h : isUpperLetter c) : pyUpperChar c = c := by
  unfold pyUpperChar
  rw [if_neg (by unfold isUpperLetter at h; omega)]

theorem pyUpperChar_upper_of_letter {c : Char} (h : isLatinLetter c) :
    isUpperLetter (pyUpperChar c) := by
  unfold isLatinLetter at h
  unfold pyUpperChar isUpperLetter
  rcases h with h | h
  · rw [if_neg (by omega)]; exact h
  · rw [if_pos h, toNat_ofNat_lt (by omega)]
    omega

theorem pyUpperChar_idem (c : Char) : pyUpperChar (pyUpperChar c) = pyUpperChar c := by
  by_cases h : 97 ≤ c.toNat ∧ c.toNat ≤ 122
  · have h1 : pyUpperChar c = Char.ofNat (c.toNat - 32) := by
      unfold pyUpperChar; rw [if_pos h]
    have h2 : (Char.ofNat (c.toNat - 32)).toNat = c.toNat - 32 :=
      toNat_ofNat_lt (by omega)
    rw [h1]
    unfold pyUpperChar
    rw [if_neg (by rw [h2]; omega), ← h1, h1]
  · have h1 : pyUpperChar c = c := by unfold pyUpperChar; rw [if_neg h]
    rw [h1, h1]

/-! ## The column address codec (claims C1 and C7) -/

/-- The loop of `_index_to_col_letter` only prepends: the accumulator is a
suffix of the result. -/
theorem i2lLoop_append (m : Nat) : ∀ acc : List Char, i2lLoop m acc = i2lLoop m [] ++ acc := by
  induction m using Nat.strong_induction_on with
  | _ m ih =>
    intro acc
    match m with
    | 0 => simp [i2lLoop]
    | n + 1 =>
      have hlt : n / 26 < n + 1 := Nat.lt_succ_of_le (Nat.div_le_self n 26)
      rw [i2lLoop, i2lLoop, ih (n / 26) hlt, ih (n / 26) hlt [Char.ofNat (n % 26 + 65)]]
      simp

/-- Folding `_col_letter_to_index`'s step over a label produced by the
`_index_to_col_letter` loop recovers the loop's input. -/
theorem colFold_i2l (m : Nat) :
    List.foldl (fun result c => result * 26 + letterOrd (pyUpperChar c)) 0 (i2lLoop m [])
      = (m : Int) := by
  induction m using Nat.strong_induction_on with
  | _ m ih =>
    match m with
    | 0 => simp [i2lLoop]
    | n + 1 =>
      have hlt : n / 26 < n + 1 := Nat.lt_succ_of_le (Nat.div_le_self n 26)
      have hv : (Char.ofNat (n % 26 + 65)).toNat = n % 26 + 65 :=
        toNat_ofNat_lt (by omega)
      have hup : pyUpperChar (Char.ofNat (n % 26 + 65)) = Char.ofNat (n % 26 + 65) :=
        pyUpperChar_of_upper (by unfold isUpperLetter; omega)
      rw [i2lLoop, i2lLoop_append, List.foldl_append, ih (n / 26) hlt]
      simp only [List.foldl_cons, List.foldl_nil, hup, letterOrd, hv]
      push_cast
      omega

/-- First half of claim C1, as a lemma: label-of-offset round-trips. -/
theorem col_letter_to_index_of_index (n : Nat) :
    _col_letter_to_index (_index_to_col_letter (n : Int)) = (n : Int) := by
  unfold _index_to_col_letter _col_letter_to_index
  have h : ((n : Int) + 1).toNat = n + 1 := by omega
  rw [h, colFold_i2l]
  push_cast
  omega

/-- The `Int` fold of `_col_letter_to_index` agrees with the `Nat` shadow
`colValNat` on uppercase labels. -/
theorem colFold_eq_colValNat : ∀ (t : List Char), (∀ c ∈ t, isUpperLetter c) → ∀ r : Nat,
    List.foldl (fun result c => result * 26 + letterOrd (pyUpperChar c)) (r : Int) t
      = (colValNat r t : Int) := by
  intro t
  induction t with
  | nil => intro _ r; simp [colValNat]
  | cons c t' ih =>
    intro h r
    have hc : isUpperLetter c := h c (List.mem_cons_self c t')
    have ht' : ∀ x ∈ t', isUpperLetter x := fun x hx => h x (List.mem_cons_of_mem c hx)
    have hstep : (r : Int) * 26 + letterOrd (pyUpperChar c)
        = ((r * 26 + (c.toNat - 64) : Nat) : Int) := by
      rw [pyUpperChar_of_upper hc]
      unfold letterOrd
      unfold isUpperLetter at hc
      push_cast [Nat.cast_sub (by omega : 64 ≤ c.toNat)]
      omega
    rw [List.foldl_cons, hstep, ih ht' (r * 26 + (c.toNat - 64))]
    rfl

/-- `colValNat` never decreases below its accumulator. -/
theorem colValNat_ge (t : List Char) : ∀ r : Nat, r ≤ colValNat r t := by
  induction t with
  | nil => intro r; exact Nat.le_refl r
  | cons c t' ih =>
    intro r
    calc r ≤ r * 26 + (c.toNat - 64) := by omega
    _ ≤ colValNat (r * 26 + (c.toNat - 64)) t' := ih _

theorem colValNat_pos {t : List Char} (hne : t ≠ []) (h : ∀ c ∈ t, isUpperLetter c) :
    1 ≤ colValNat 0 t := by
  match t, hne with
  | c :: t', _ =>
    have hc : isUpperLetter c := h c (List.mem_cons_self c t')
    unfold isUpperLetter at hc
    calc (1 : Nat) ≤ 0 * 26 + (c.toNat - 64) := by omega
    _ ≤ colValNat (0 * 26 + (c.toNat - 64)) t' := colValNat_ge t' _
    _ = colValNat 0 (c :: t') := rfl

/-- `colValNat` accumulates from the left. -/
theorem colValNat_append (r : Nat) (t : List Char) (c : Char) :
    colValNat r (t ++ [c]) = colValNat r t * 26 + (c.toNat - 64) := by
  unfold colValNat
  rw [List.foldl_append]
  rfl

/-- The `_index_to_col_letter` loop inverts `colValNat` on uppercase labels. -/
theorem i2l_colValNat : ∀ t : List Char, (∀ c ∈ t, isUpperLetter c) →
    i2lLoop (colValNat 0 t) [] = t := by
  intro t
  induction t using List.reverseRecOn with
  | nil => intro _; simp [colValNat, i2lLoop]
  | append_singleton t' c ih =>
    intro h
    have hc : isUpperLetter c := h c (by simp)
    have ht' : ∀ x ∈ t', isUpperLetter x := fun x hx => h x (by simp [hx])
    have hd : 1 ≤ c.toNat - 64 ∧ c.toNat - 64 ≤ 26 := by
      unfold isUpperLetter at hc; omega
    rw [colValNat_append]
    have hsucc : colValNat 0 t' * 26 + (c.toNat - 64)
        = (colValNat 0 t' * 26 + (c.toNat - 64 - 1)) + 1 := by omega
    rw [hsucc, i2lLoop]
    have hdiv : (colValNat 0 t' * 26 + (c.toNat - 64 - 1)) / 26 = colValNat 0 t' := by
      omega
    have hmod : (colValNat 0 t' * 26 + (c.toNat - 64 - 1)) % 26 = c.toNat - 64 - 1 := by
      omega
    have hchar : Char.ofNat ((c.toNat - 64 - 1) + 65) = c := by
      have he : (c.toNat - 64 - 1) + 65 = c.toNat := by
        unfold isUpperLetter at hc; omega
      rw [he, Char.ofNat_toNat]
    rw [hdiv, hmod, hchar, i2lLoop_append, ih ht']

/-- Upper-casing first does not change `_col_letter_to_index` (the code's
`letter.upper()` composed with itself). -/
theorem colIndex_map_upper (s : List Char) :
    _col_letter_to_index (s.map pyUpperChar) = _col_letter_to_index s := by
  unfold _col_letter_to_index
  rw [List.foldl_map]
  simp only [pyUpperChar_idem]

/-- Second half of claim C1, as a lemma: offset-of-label round-trips to the
upper-cased label on letter-only strings. -/
theorem index_to_col_letter_of_label (s : List Char) (h : ∀ c ∈ s, isLatinLetter c) :
    _index_to_col_letter (_col_letter_to_index s) = s.map pyUpperChar := by
  have hu : ∀ c ∈ s.map pyUpperChar, isUpperLetter c := by
    intro c hc
    rcases List.mem_map.mp hc with ⟨x, hx, rfl⟩
    exact pyUpperChar_upper_of_letter (h x hx)
  rw [← colIndex_map_upper]
  unfold _index_to_col_letter _col_letter_to_index
  have h0 : (0 : Int) = ((0 : Nat) : Int) := rfl
  rw [h0, colFold_eq_colValNat (s.map pyUpperChar) hu 0]
  have ht : ((colValNat 0 (s.map pyUpperChar) : Int) - 1 + 1).toNat
      = colValNat 0 (s.map pyUpperChar) := by omega
  rw [ht]
  exact i2l_colValNat (s.map pyUpperChar) hu

/-- Claim C1: the column address codec is a round-trip bijection — for every
non-negative integer `n`, `labelToOffset (offsetToLabel n) = n`, and for every
non-empty letter-only string `s` (case-insensitive),
`offsetToLabel (labelToOffset s)` is the uppercase of `s`. -/
theorem claim_C1_codec_roundtrip :
    (∀ n : Nat, _col_letter_to_index (_index_to_col_letter (n : Int)) = (n : Int)) ∧
    (∀ s : List Char, s ≠ [] → (∀ c ∈ s, isLatinLetter c) →
      _index_to_col_letter (_col_letter_to_index s) = s.map pyUpperChar) :=
  ⟨col_letter_to_index_of_index,
   fun s _ h => index_to_col_letter_of_label s h⟩

/-- Witness for claim C1 at `n = 27` and `s = "ab"`. -/
theorem claim_C1_witness :
    _col_letter_to_index (_index_to_col_letter ((27 : Nat) : Int)) = ((27 : Nat) : Int) ∧
    _index_to_col_letter (_col_letter_to_index "ab".toList) = "AB".toList :=
  ⟨claim_C1_codec_roundtrip.1 27,
   (claim_C1_codec_roundtrip.2 "ab".toList (by decide) (by decide)).trans (by decide)⟩

/-- Claim C7 counterexample: neither codec direction validates or raises.
`labelToOffset` returns the ordinary value `-1` on the empty string and `37`
on the non-letter label `"B2"`; `offsetToLabel` returns the empty string on
the negative offsets `-1` and `-5`. No `InvalidColumnLabel` failure exists in
the code: both functions are total and silently return these values. -/
theorem claim_C7_counterexample :
    _col_letter_to_index [] = -1 ∧
    _col_letter_to_index "B2".toList = 37 ∧
    _index_to_col_letter (-1) = [] ∧
    _index_to_col_letter (-5) = [] := by
  refine ⟨by decide, by decide, ?_, ?_⟩ <;> simp [_index_to_col_letter, i2lLoop]

/-- Claim C7 amended: `labelToOffset` and `offsetToLabel` perform no
validation and never error. The empty label maps to `-1`, non-letter labels
(e.g. `"B2"`) map to ordinary (meaningless) integers, and every negative
offset maps to the empty string. -/
theorem claim_C7_amended :
    _col_letter_to_index [] = -1 ∧
    (∀ i : Int, i < 0 → _index_to_col_letter i = []) ∧
    _col_letter_to_index "B2".toList = 37 := by
  refine ⟨by decide, ?_, by decide⟩
  intro i hi
  unfold _index_to_col_letter
  have h : (i + 1).toNat = 0 := by omega
  rw [h, i2lLoop]

/-- Witness for claim C7's amended theorem at offset `-3`. -/
theorem claim_C7_witness : _index_to_col_letter (-3) = [] :=
  claim_C7_amended.2.1 (-3) (by decide)

/-! ## The range descriptor parser (claim C8) -/

/-- `str.split` never returns an empty list. -/
theorem pySplit_ne_nil (sep : Char) (s : List Char) : pySplit sep s ≠ [] := by
  cases s with
  | nil => simp [pySplit]
  | cons c cs =>
    simp only [pySplit]
    cases pySplit sep cs with
    | nil => simp
    | cons h t =>
      by_cases hc : c = sep
      · simp [hc]
      · simp [hc]

/-- Splitting a string that does not contain the separator gives it back whole. -/
theorem pySplit_not_mem {sep : Char} : ∀ {s : List Char}, sep ∉ s → pySplit sep s = [s] := by
  intro s
  induction s with
  | nil => intro _; rfl
  | cons c cs ih =>
    intro h
    have hc : ¬c = sep := fun he => h (he ▸ List.mem_cons_self c cs)
    have hcs : sep ∉ cs := fun hm => h (List.mem_cons_of_mem c hm)
    simp [pySplit, ih hcs, hc]

/-- Splitting a string that contains the separator gives at least two parts. -/
theorem pySplit_length_of_mem {sep : Char} :
    ∀ {s : List Char}, sep ∈ s → 2 ≤ (pySplit sep s).length := by
  intro s
  induction s with
  | nil => intro h; exact absurd h (List.not_mem_nil sep)
  | cons c cs ih =>
    intro hmem
    simp only [pySplit]
    cases h : pySplit sep cs with
    | nil => exact absurd h (pySplit_ne_nil sep cs)
    | cons hh tt =>
      by_cases hc : c = sep
      · simp [hc]
      · have hcs : sep ∈ cs := by
          rcases List.mem_cons.mp hmem with he | hm
          · exact absurd he.symm hc
          · exact hm
        have h2 := ih hcs
        rw [h] at h2
        simp only [List.length_cons] at h2
        simp [hc]
        omega

/-- The last part of a split is determined by the text after the last
separator occurrence. -/
theorem pySplit_last_append {sep : Char} : ∀ (a b : List Char),
    (pySplit sep (a ++ sep :: b)).getLastD [] = (pySplit sep b).getLastD [] := by
  intro a b
  induction a with
  | nil =>
    simp only [List.nil_append, pySplit]
    cases h : pySplit sep b with
    | nil => exact absurd h (pySplit_ne_nil sep b)
    | cons hh tt => simp [List.getLastD_cons]
  | cons c a' ih =>
    simp only [List.cons_append, pySplit]
    cases h : pySplit sep (a' ++ sep :: b) with
    | nil => exact absurd h (pySplit_ne_nil sep _)
    | cons hh tt =>
      have htt : tt ≠ [] := by
        have h2 : 2 ≤ (pySplit sep (a' ++ sep :: b)).length :=
          pySplit_length_of_mem (by simp)
        rw [h] at h2
        simp only [List.length_cons] at h2
        intro he
        rw [he] at h2
        simp at h2
      rw [h] at ih
      change (if c = sep then [] :: hh :: tt else (c :: hh) :: tt).getLastD []
        = (pySplit sep b).getLastD []
      by_cases hc : c = sep
      · rw [if_pos hc, List.getLastD_cons, ← ih, List.getLastD_cons]
      · rw [if_neg hc, List.getLastD_cons, ← ih, List.getLastD_cons]
        cases tt with
        | nil => exact absurd rfl htt
        | cons u us => rw [List.getLastD_cons, List.getLastD_cons]

/-- `range_name.split('!')[-1]` is the text after the last `'!'`. -/
theorem pySplit_last_of_bang {rest : List Char} (p : List Char) (h : '!' ∉ rest) :
    (pySplit '!' (p ++ '!' :: rest)).getLastD [] = rest := by
  rw [pySplit_last_append, pySplit_not_mem h]
  rfl

/-- A span with exactly one separator splits into exactly its two sides. -/
theorem pySplit_two {sep : Char} : ∀ {a : List Char} (b : List Char), sep ∉ a → sep ∉ b →
    pySplit sep (a ++ sep :: b) = [a, b] := by
  intro a
  induction a with
  | nil =>
    intro b _ hb
    simp [pySplit, pySplit_not_mem hb]
  | cons c a' ih =>
    intro b ha hb
    have hc : ¬c = sep := fun he => ha (he ▸ List.mem_cons_self c a')
    have ha' : sep ∉ a' := fun hm => ha (List.mem_cons_of_mem c hm)
    simp [pySplit, ih b ha' hb, hc]

/-- Claim C8 counterexample: the parser retains every letter character of a
side, not only the contiguous leading letters. For `"A1B:C2"` the code
produces start column `"AB"` (the letters `A` and `B` around the digit `1`),
whereas the claim's "contiguous leading letters" reading predicts `"A"`. -/
theorem claim_C8_counterexample :
    _get_column_range_info "A1B:C2".toList = .ok ("AB".toList, "C".toList) ∧
    "AB".toList ≠ "A".toList := by
  exact ⟨by decide, by decide⟩

/-- Claim C8 amended: `parseRange` removes any sheet-name segment (all text up
to and including the last `'!'`), and from each side of the span retains all
letter characters wherever they occur (discarding row numbers and other
non-letter characters); for a well-formed side — contiguous leading letters
followed by only non-letters — this equals the contiguous leading letters.
When the span contains no `':'`, start and end both equal the single
extracted column. -/
theorem claim_C8_amended :
    (∀ p a b : List Char, '!' ∉ a → '!' ∉ b → ':' ∉ a → ':' ∉ b →
      _get_column_range_info (p ++ '!' :: (a ++ ':' :: b))
        = .ok (filterAlpha a, filterAlpha b)) ∧
    (∀ a b : List Char, ':' ∉ a → ':' ∉ b → '!' ∉ a → '!' ∉ b →
      _get_column_range_info (a ++ ':' :: b) = .ok (filterAlpha a, filterAlpha b)) ∧
    (∀ p s : List Char, '!' ∉ s → ':' ∉ s →
      _get_column_range_info (p ++ '!' :: s) = .ok (filterAlpha s, filterAlpha s)) ∧
    (∀ s : List Char, '!' ∉ s → ':' ∉ s →
      _get_column_range_info s = .ok (filterAlpha s, filterAlpha s)) ∧
    (∀ a b : List Char, (∀ c ∈ a, isLatinLetter c) → (∀ c ∈ b, ¬isLatinLetter c) →
      filterAlpha (a ++ b) = a) := by
  refine ⟨?_, ?_, ?_, ?_, ?_⟩
  · intro p a b hba hbb hca hcb
    have hrestnot : '!' ∉ a ++ ':' :: b := by
      intro hmem
      rcases List.mem_append.mp hmem with h1 | h1
      · exact hba h1
      · rcases List.mem_cons.mp h1 with h2 | h2
        · exact absurd h2 (by decide)
        · exact hbb h2
    have hbangmem : '!' ∈ p ++ '!' :: (a ++ ':' :: b) := by simp
    have hcolmem : ':' ∈ a ++ ':' :: b := by simp
    unfold _get_column_range_info
    rw [if_pos hbangmem, pySplit_last_of_bang p hrestnot, if_pos hcolmem,
      pySplit_two b hca hcb]
  · intro a b hca hcb hba hbb
    have hbangnot : '!' ∉ a ++ ':' :: b := by
      intro hmem
      rcases List.mem_append.mp hmem with h1 | h1
      · exact hba h1
      · rcases List.mem_cons.mp h1 with h2 | h2
        · exact absurd h2 (by decide)
        · exact hbb h2
    have hcolmem : ':' ∈ a ++ ':' :: b := by simp
    unfold _get_column_range_info
    rw [if_neg hbangnot, if_pos hcolmem, pySplit_two b hca hcb]
  · intro p s hbs hcs
    have hbangmem : '!' ∈ p ++ '!' :: s := by simp
    unfold _get_column_range_info
    rw [if_pos hbangmem, pySplit_last_of_bang p hbs, if_neg hcs]
  · intro s hbs hcs
    unfold _get_column_range_info
    rw [if_neg hbs, if_neg hcs]
  · intro a b ha hb
    unfold filterAlpha
    rw [List.filter_append]
    rw [List.filter_eq_self.mpr (by intro c hc; exact decide_eq_true (ha c hc))]
    rw [List.filter_eq_nil_iff.mpr (by intro c hc; simpa using hb c hc), List.append_nil]

/-- Witness for claim C8's amended theorem at `"Sheet1!B2:E9"` (parses to
`("B", "E")`) and at the side decomposition `"B" ++ "2"`. -/
theorem claim_C8_witness :
    _get_column_range_info "Sheet1!B2:E9".toList = .ok ("B".toList, "E".toList) ∧
    filterAlpha ("B".toList ++ "2".toList) = "B".toList :=
  ⟨((claim_C8_amended.1 "Sheet1".toList "B2".toList "E9".toList
      (by decide) (by decide) (by decide) (by decide)).trans (by decide)),
   claim_C8_amended.2.2.2.2 "B".toList "2".toList (by decide) (by decide)⟩

/-! ## The column index resolver (claims C2 and C6) -/

/-- On a successful parse, `resolveOffsets` maps every requested column to its
`pyIndexOf` position in the enumerated span. -/
theorem resolveOffsets_ok {rng s e : List Char} (dc : List (List Char × List Char))
    (h : _get_column_range_info rng = .ok (s, e)) :
    resolveOffsets rng dc
      = .ok (dc.map fun p => (p.1, pyIndexOf (_get_columns_in_range s e) p.1)) := by
  unfold resolveOffsets
  rw [h]

/-- The span of `"B:E"`, evaluated. -/
theorem spanBE : _get_columns_in_range "B".toList "E".toList
    = ["B".toList, "C".toList, "D".toList, "E".toList] := by
  have h1 : _col_letter_to_index "B".toList = 1 := by decide
  have h2 : _col_letter_to_index "E".toList = 4 := by decide
  rw [_get_columns_in_range, h1, h2]
  have h3 : pyRange 1 (4 + 1) = [1, 2, 3, 4] := by decide
  rw [h3]
  simp [_index_to_col_letter, i2lLoop]

/-- `pyIndexOf` returns the first position of its argument: the element is
there, and no earlier position holds it. -/
theorem pyIndexOf_some : ∀ (l : List (List Char)) (x : List Char) (i : Nat),
    pyIndexOf l x = some i → l[i]? = some x ∧ ∀ j < i, l[j]? ≠ some x := by
  intro l
  induction l with
  | nil => intro x i h; exact absurd h (by simp [pyIndexOf])
  | cons hd t ih =>
    intro x i h
    rw [pyIndexOf] at h
    by_cases he : hd = x
    · rw [if_pos he] at h
      have hi : i = 0 := by
        have := h
        simp only [Option.some.injEq] at this
        omega
      subst hi
      exact ⟨by simp [he], fun j hj => absurd hj (by omega)⟩
    · rw [if_neg he] at h
      rcases Option.map_eq_some'.mp h with ⟨i', hi', rfl⟩
      obtain ⟨h1, h2⟩ := ih x i' hi'
      refine ⟨by simpa using h1, ?_⟩
      intro j hj
      cases j with
      | zero =>
        simp only [List.getElem?_cons_zero, ne_eq, Option.some.injEq]
        exact he
      | succ j' =>
        simp only [List.getElem?_cons_succ]
        exact h2 j' (by omega)

/-- A column absent from the span gets the unresolved marker `None`. -/
theorem pyIndexOf_eq_none {x : List Char} :
    ∀ {l : List (List Char)}, x ∉ l → pyIndexOf l x = Option.none := by
  intro l
  induction l with
  | nil => intro _; rfl
  | cons hd t ih =>
    intro h
    have he : ¬hd = x := fun he => h (List.mem_cons.mpr (Or.inl he.symm))
    have ht : x ∉ t := fun hm => h (List.mem_cons_of_mem hd hm)
    rw [pyIndexOf, if_neg he, ih ht]
    rfl

/-- Claim C2: `resolveOffsets` assigns each requested column its 0-based
position within the spanned column list (relative to the fetched span): a
resolved offset `i` means the span holds the column at position `i` and at no
earlier position; on a parsed range the resolved offsets are exactly the span
positions; and for range `"B:E"` with requested columns `"B"` and `"D"` the
offsets are `B ↦ 0` and `D ↦ 2`. -/
theorem claim_C2_resolved_offsets :
    (∀ (cols : List (List Char)) (x : List Char) (i : Nat),
      pyIndexOf cols x = some i →
        cols[i]? = some x ∧ ∀ j < i, cols[j]? ≠ some x) ∧
    (∀ (rng s e : List Char) (dc : List (List Char × List Char)),
      _get_column_range_info rng = .ok (s, e) →
      resolveOffsets rng dc
        = .ok (dc.map fun p => (p.1, pyIndexOf (_get_columns_in_range s e) p.1))) ∧
    resolveOffsets "B:E".toList [("B".toList, "str".toList), ("D".toList, "int".toList)]
      = .ok [("B".toList, some 0), ("D".toList, some 2)] := by
  refine ⟨pyIndexOf_some, fun rng s e dc h => resolveOffsets_ok dc h, ?_⟩
  rw [resolveOffsets_ok _
    (by decide : _get_column_range_info "B:E".toList = .ok ("B".toList, "E".toList)), spanBE]
  decide

/-- Witness for claim C2 at the span `["B","C","D","E"]`, the column `"D"`
and the range `"B:E"`. -/
theorem claim_C2_witness :
    ["B".toList, "C".toList, "D".toList, "E".toList][2]? = some "D".toList ∧
    resolveOffsets "B:E".toList [("D".toList, "int".toList)]
      = .ok [("D".toList,
          pyIndexOf (_get_columns_in_range "B".toList "E".toList) "D".toList)] :=
  ⟨(claim_C2_resolved_offsets.1 ["B".toList, "C".toList, "D".toList, "E".toList]
      "D".toList 2 (by decide)).1,
   claim_C2_resolved_offsets.2.1 "B:E".toList "B".toList "E".toList
      [("D".toList, "int".toList)] (by decide)⟩

/-! ## Null handling of the value converter (claim C3) -/

/-- `_convert_value` on Python `None` is null, for every type tag. -/
theorem convert_value_none (dtype : List Char) :
    _convert_value Option.none dtype = .ok .none := by
  unfold _convert_value
  rw [if_pos (Or.inr rfl)]

/-- `_convert_value` on the empty string is null, for every type tag. -/
theorem convert_value_empty (dtype : List Char) :
    _convert_value (some []) dtype = .ok .none := by
  unfold _convert_value
  rw [if_pos (Or.inl rfl)]

/-- Claim C3: for every type tag — the four supported ones and any other
string — converting the empty string or the null marker returns null without
error; the null check short-circuits before the caster dictionary (and hence
any type-specific parsing) is consulted. -/
theorem claim_C3_null_short_circuit :
    ∀ dtype : List Char,
      _convert_value (some []) dtype = .ok .none ∧
      _convert_value Option.none dtype = .ok .none :=
  fun dtype => ⟨convert_value_empty dtype, convert_value_none dtype⟩

/-! ## Unresolved and out-of-range columns (claim C6) -/

/-- A cell under an unresolved column is Python `None`. -/
theorem rowCell_unresolved {c2i : List (List Char × Option Nat)}
    {row : List (List Char)} {col : List Char}
    (h : pyDictLookup c2i col = some Option.none) :
    rowCell c2i row col = Option.none := by
  unfold rowCell
  rw [h]

/-- A cell whose resolved offset falls beyond the row's end is Python `None`. -/
theorem rowCell_short_row {c2i : List (List Char × Option Nat)}
    {row : List (List Char)} {col : List Char} {i : Nat}
    (h : pyDictLookup c2i col = some (some i)) (hlen : row.length ≤ i) :
    rowCell c2i row col = Option.none := by
  unfold rowCell
  rw [h]
  change (if i < row.length then some (row.getD i []) else Option.none) = Option.none
  rw [if_neg (by omega)]

/-- Claim C6: a requested column outside the fetched span is never an error —
its resolved offset is the unresolved marker (`"Z"` against `"B:E"`
concretely, and any absent column generally), and each such column's cell
converts to null for every row and every type tag; likewise a resolved offset
at or past the end of a short raw row yields null. -/
theorem claim_C6_unresolved_null :
    resolveOffsets "B:E".toList [("Z".toList, "str".toList)]
      = .ok [("Z".toList, Option.none)] ∧
    (∀ (cols : List (List Char)) (x : List Char),
      x ∉ cols → pyIndexOf cols x = Option.none) ∧
    (∀ (c2i : List (List Char × Option Nat)) (row : List (List Char))
       (col dtype : List Char),
      pyDictLookup c2i col = some Option.none →
      _convert_value (rowCell c2i row col) dtype = .ok .none) ∧
    (∀ (c2i : List (List Char × Option Nat)) (row : List (List Char))
       (col dtype : List Char) (i : Nat),
      pyDictLookup c2i col = some (some i) → row.length ≤ i →
      _convert_value (rowCell c2i row col) dtype = .ok .none) := by
  refine ⟨?_, fun cols x h => pyIndexOf_eq_none h, ?_, ?_⟩
  · rw [resolveOffsets_ok _
      (by decide : _get_column_range_info "B:E".toList = .ok ("B".toList, "E".toList)), spanBE]
    decide
  · intro c2i row col dtype h
    rw [rowCell_unresolved h]
    exact convert_value_none dtype
  · intro c2i row col dtype i h hlen
    rw [rowCell_short_row h hlen]
    exact convert_value_none dtype

/-- Witness for claim C6 at the one-entry offset dict `Z ↦ None` (and
`B ↦ 7` against a two-cell row), for the type tag `"int"`. -/
theorem claim_C6_witness :
    pyIndexOf ["B".toList, "C".toList] "Z".toList = Option.none ∧
    _convert_value (rowCell [("Z".toList, Option.none)] ["x".toList] "Z".toList)
      "int".toList = .ok .none ∧
    _convert_value (rowCell [("B".toList, some 7)] ["x".toList, "y".toList] "B".toList)
      "int".toList = .ok .none :=
  ⟨claim_C6_unresolved_null.2.1 ["B".toList, "C".toList] "Z".toList (by decide),
   claim_C6_unresolved_null.2.2.1 [("Z".toList, Option.none)] ["x".toList]
     "Z".toList "int".toList (by decide),
   claim_C6_unresolved_null.2.2.2 [("B".toList, some 7)] ["x".toList, "y".toList]
     "B".toList "int".toList 7 (by decide) (by decide)⟩

/-! ## Date conversion (claim C4) -/

/-- A first-format success is returned at once. -/
theorem parse_date_first {v : List Char} {d : PyDate} (h : tryYMD '-' v = some d) :
    _parse_date v = .ok d := by
  unfold _parse_date
  rw [h]
  rfl

/-- A second-format success is returned when the first format fails. -/
theorem parse_date_second {v : List Char} {d : PyDate}
    (h1 : tryYMD '-' v = Option.none) (h2 : tryYMD '.' v = some d) :
    _parse_date v = .ok d := by
  unfold _parse_date
  rw [h1, h2]
  rfl

/-- A third-format success is returned when the first two formats fail. -/
theorem parse_date_third {v : List Char} {d : PyDate}
    (h1 : tryYMD '-' v = Option.none) (h2 : tryYMD '.' v = Option.none)
    (h3 : tryDMY v = some d) :
    _parse_date v = .ok d := by
  unfold _parse_date
  rw [h1, h2, h3]
  rfl

/-- When all three formats fail, `_parse_date` raises a `ValueError` whose
message quotes the raw value. -/
theorem parse_date_fail {v : List Char}
    (h1 : tryYMD '-' v = Option.none) (h2 : tryYMD '.' v = Option.none)
    (h3 : tryDMY v = Option.none) :
    _parse_date v
      = .error ⟨"ValueError".toList,
          "Не удалось распознать дату: '".toList ++ v ++ "'".toList⟩ := by
  unfold _parse_date
  rw [h1, h2, h3]
  rfl

/-- Reduction of `_convert_value` on a non-null value to the caster dispatch. -/
theorem convert_value_some {v : List Char} (hv : v ≠ []) (dtype : List Char) :
    _convert_value (some v) dtype
      = match _TYPE_CASTERS dtype with
        | Option.none =>
          .error ⟨"ValueError".toList,
            convErrMsg v dtype ("'".toList ++ dtype ++ "'".toList)⟩
        | some caster =>
          match caster v with
          | .ok x => .ok x
          | .error e => .error ⟨"ValueError".toList, convErrMsg v dtype e.msg⟩ := by
  unfold _convert_value
  rw [if_neg (by simp [hv])]

/-- Reduction of `_convert_value` on a non-null value when the tag has a
caster: the caster runs, and its error is wrapped. -/
theorem convert_value_caster {v : List Char} (hv : v ≠ []) {dtype : List Char}
    {caster : List Char → Except PyErr Value} (hc : _TYPE_CASTERS dtype = some caster) :
    _convert_value (some v) dtype
      = match caster v with
        | .ok x => .ok x
        | .error e => .error ⟨"ValueError".toList, convErrMsg v dtype e.msg⟩ := by
  rw [convert_value_some hv, hc]

/-- Failed date conversion of a non-null value raises the wrapped `ValueError`. -/
theorem convert_date_fail {v : List Char} (hv : v ≠ [])
    (h1 : tryYMD '-' v = Option.none) (h2 : tryYMD '.' v = Option.none)
    (h3 : tryDMY v = Option.none) :
    _convert_value (some v) "date".toList
      = .error ⟨"ValueError".toList,
          convErrMsg v "date".toList
            ("Не удалось распознать дату: '".toList ++ v ++ "'".toList)⟩ := by
  rw [convert_value_caster hv (rfl : _TYPE_CASTERS "date".toList = some pyDateCast)]
  have hp : pyDateCast v
      = .error ⟨"ValueError".toList,
          "Не удалось распознать дату: '".toList ++ v ++ "'".toList⟩ := by
    unfold pyDateCast
    rw [parse_date_fail h1 h2 h3]
  rw [hp]

/-- Claim C4: date conversion tries `YYYY-MM-DD`, `YYYY.MM.DD`, `DD.MM.YYYY`
in that order and returns the first successful parse; the three example
strings all convert to the calendar date 2025-08-19; and when no pattern
matches, conversion fails with a `ValueError` whose message contains the
unparsed raw value. -/
theorem claim_C4_date_formats :
    _convert_value (some "2025-08-19".toList) "date".toList
      = .ok (.date ⟨2025, 8, 19⟩) ∧
    _convert_value (some "2025.08.19".toList) "date".toList
      = .ok (.date ⟨2025, 8, 19⟩) ∧
    _convert_value (some "19.08.2025".toList) "date".toList
      = .ok (.date ⟨2025, 8, 19⟩) ∧
    (∀ (v : List Char) (d : PyDate), tryYMD '-' v = some d → _parse_date v = .ok d) ∧
    (∀ (v : List Char) (d : PyDate), tryYMD '-' v = Option.none →
      tryYMD '.' v = some d → _parse_date v = .ok d) ∧
    (∀ (v : List Char) (d : PyDate), tryYMD '-' v = Option.none →
      tryYMD '.' v = Option.none → tryDMY v = some d → _parse_date v = .ok d) ∧
    (∀ v : List Char, v ≠ [] →
      tryYMD '-' v = Option.none → tryYMD '.' v = Option.none → tryDMY v = Option.none →
      ∃ pre post : List Char,
        _convert_value (some v) "date".toList
          = .error ⟨"ValueError".toList, pre ++ (v ++ post)⟩) := by
  refine ⟨by decide, by decide, by decide,
    fun v d h => parse_date_first h,
    fun v d h1 h2 => parse_date_second h1 h2,
    fun v d h1 h2 h3 => parse_date_third h1 h2 h3,
    ?_⟩
  intro v hv h1 h2 h3
  refine ⟨"Ошибка преобразования '".toList,
    "' в ".toList ++ ("date".toList ++ (": ".toList ++
      ("Не удалось распознать дату: '".toList ++ v ++ "'".toList))), ?_⟩
  rw [convert_date_fail hv h1 h2 h3]
  simp [convErrMsg]

/-- Witness for claim C4: the second format succeeds on `"2025.08.19"` after
the first fails, and `"oops"` fails with a message containing `"oops"`. -/
theorem claim_C4_witness :
    _parse_date "2025.08.19".toList = .ok ⟨2025, 8, 19⟩ ∧
    (∃ pre post : List Char,
      _convert_value (some "oops".toList) "date".toList
        = .error ⟨"ValueError".toList, pre ++ ("oops".toList ++ post)⟩) :=
  ⟨claim_C4_date_formats.2.2.2.2.1 "2025.08.19".toList ⟨2025, 8, 19⟩
      (by decide) (by decide),
   claim_C4_date_formats.2.2.2.2.2.2 "oops".toList
      (by decide) (by decide) (by decide) (by decide)⟩

/-! ## Unsupported type tags (claim C9) -/

/-- Every exception `_convert_value` raises is a `ValueError`, including the
wrapped `KeyError` of an unknown type tag. -/
theorem convert_value_error_cls :
    ∀ (v : Option (List Char)) (dtype : List Char) (e : PyErr),
      _convert_value v dtype = .error e → e.cls = "ValueError".toList := by
  intro v dtype e h
  rcases v with _ | v'
  · rw [convert_value_none] at h
    exact absurd h (by simp)
  · by_cases hv : v' = []
    · subst hv
      rw [convert_value_empty] at h
      exact absurd h (by simp)
    · cases hc : _TYPE_CASTERS dtype with
      | none =>
        rw [convert_value_some hv, hc] at h
        change Except.error ⟨"ValueError".toList,
          convErrMsg v' dtype ("'".toList ++ dtype ++ "'".toList)⟩ = Except.error e at h
        cases h
        rfl
      | some caster =>
        rw [convert_value_caster hv hc] at h
        cases hcast : caster v' with
        | ok x =>
          rw [hcast] at h
          change (Except.ok x : Except PyErr Value) = Except.error e at h
          exact absurd h (by simp)
        | error e' =>
          rw [hcast] at h
          change Except.error ⟨"ValueError".toList, convErrMsg v' dtype e'.msg⟩
            = Except.error e at h
          cases h
          rfl

/-- Claim C9 counterexample: an unsupported type tag does not fail with a
distinct `UnsupportedType` error. The lookup `KeyError` is caught by
`except Exception` and re-raised as the very same `ValueError` used for
conversion failures, with the same message format. -/
theorem claim_C9_counterexample :
    _convert_value (some "x".toList) "unknown".toList
      = .error ⟨"ValueError".toList,
          convErrMsg "x".toList "unknown".toList
            ("'".toList ++ "unknown".toList ++ "'".toList)⟩ ∧
    _convert_value (some "oops".toList) "int".toList
      = .error ⟨"ValueError".toList,
          convErrMsg "oops".toList "int".toList
            "invalid literal for int() with base 10: 'oops'".toList⟩ :=
  ⟨by decide, by decide⟩

/-- Claim C9 amended: for every non-empty, non-null raw value, conversion
with a type tag outside `str`/`int`/`float`/`date` fails — but with the same
`ValueError` class used for conversion errors (the missing-key lookup error
is caught and wrapped), not a distinct `UnsupportedType` error; indeed every
error the converter raises has class `ValueError`. -/
theorem claim_C9_amended :
    (∀ v dtype : List Char, v ≠ [] → _TYPE_CASTERS dtype = Option.none →
      _convert_value (some v) dtype
        = .error ⟨"ValueError".toList,
            convErrMsg v dtype ("'".toList ++ dtype ++ "'".toList)⟩) ∧
    (∀ dtype : List Char, dtype ≠ "str".toList → dtype ≠ "int".toList →
      dtype ≠ "float".toList → dtype ≠ "date".toList →
      _TYPE_CASTERS dtype = Option.none) ∧
    (∀ (v : Option (List Char)) (dtype : List Char) (e : PyErr),
      _convert_value v dtype = .error e → e.cls = "ValueError".toList) := by
  refine ⟨?_, ?_, convert_value_error_cls⟩
  · intro v dtype hv hc
    rw [convert_value_some hv, hc]
  · intro dtype h1 h2 h3 h4
    unfold _TYPE_CASTERS
    rw [if_neg h1, if_neg h2, if_neg h3, if_neg h4]

/-- Witness for claim C9's amended theorem at value `"x"` and tag `"unknown"`. -/
theorem claim_C9_witness :
    _convert_value (some "x".toList) "unknown".toList
      = .error ⟨"ValueError".toList,
          convErrMsg "x".toList "unknown".toList
            ("'".toList ++ "unknown".toList ++ "'".toList)⟩ ∧
    _TYPE_CASTERS "unknown".toList = Option.none :=
  ⟨claim_C9_amended.1 "x".toList "unknown".toList (by decide)
     (claim_C9_amended.2.1 "unknown".toList (by decide) (by decide) (by decide) (by decide)),
   claim_C9_amended.2.1 "unknown".toList (by decide) (by decide) (by decide) (by decide)⟩

/-! ## Row materialization (claims C5 and C10) -/

/-- Materialization preserves the number of rows on success. -/
theorem materializeRows_ok_length {c2i : List (List Char × Option Nat)}
    {dc : List (List Char × List Char)} :
    ∀ {l : List (List (List Char))} {rows : List (List Value)},
      materializeRows c2i dc l = .ok rows → rows.length = l.length := by
  intro l
  induction l with
  | nil =>
    intro rows h
    change (Except.ok [] : Except PyErr (List (List Value))) = .ok rows at h
    cases h
    rfl
  | cons row rest ih =>
    intro rows h
    rw [materializeRows] at h
    cases hcr : convertRow c2i dc row with
    | error e =>
      rw [hcr] at h
      change (Except.error e : Except PyErr (List (List Value))) = .ok rows at h
      exact absurd h (by simp)
    | ok t =>
      rw [hcr] at h
      cases hmr : materializeRows c2i dc rest with
      | error e =>
        rw [hmr] at h
        change (Except.error e : Except PyErr (List (List Value))) = .ok rows at h
        exact absurd h (by simp)
      | ok ts =>
        rw [hmr] at h
        change (Except.ok (t :: ts) : Except PyErr (List (List Value))) = .ok rows at h
        cases h
        simp [ih hmr]

/-- On success, the `i`-th tuple is the conversion of the `i`-th raw row. -/
theorem materializeRows_ok_get {c2i : List (List Char × Option Nat)}
    {dc : List (List Char × List Char)} :
    ∀ {l : List (List (List Char))} {rows : List (List Value)},
      materializeRows c2i dc l = .ok rows →
      ∀ (i : Nat) (hi : i < rows.length) (hl : i < l.length),
        convertRow c2i dc (l.get ⟨i, hl⟩) = .ok (rows.get ⟨i, hi⟩) := by
  intro l
  induction l with
  | nil =>
    intro rows h i hi hl
    exact absurd hl (by simp)
  | cons row rest ih =>
    intro rows h i hi hl
    rw [materializeRows] at h
    cases hcr : convertRow c2i dc row with
    | error e =>
      rw [hcr] at h
      change (Except.error e : Except PyErr (List (List Value))) = .ok rows at h
      exact absurd h (by simp)
    | ok t =>
      rw [hcr] at h
      cases hmr : materializeRows c2i dc rest with
      | error e =>
        rw [hmr] at h
        change (Except.error e : Except PyErr (List (List Value))) = .ok rows at h
        exact absurd h (by simp)
      | ok ts =>
        rw [hmr] at h
        change (Except.ok (t :: ts) : Except PyErr (List (List Value))) = .ok rows at h
        cases h
        cases i with
        | zero => exact hcr
        | succ i' => exact ih hmr i' (by simpa using hi) (by simpa using hl)

/-- An empty fetched result set short-circuits to the empty tuple list. -/
theorem read_as_tuples_nil (rng : List Char) (dc : List (List Char × List Char)) :
    read_as_tuples rng dc [] = .ok [] := by
  unfold read_as_tuples
  rw [if_pos rfl]

/-- With resolved offsets, reading a non-empty result materializes its tail. -/
theorem read_as_tuples_resolved {rng : List Char} {dc : List (List Char × List Char)}
    {v0 : List (List Char)} {values : List (List (List Char))}
    {c2i : List (List Char × Option Nat)}
    (h : resolveOffsets rng dc = .ok c2i) :
    read_as_tuples rng dc (v0 :: values) = materializeRows c2i dc values := by
  unfold read_as_tuples
  rw [if_neg (by simp), h]
  rfl

/-- Claim C5: the first fetched row is always treated as a header and
excluded — a successful read yields exactly one tuple per row after the
first, in row order — and an empty fetched result set yields an empty tuple
sequence without error. -/
theorem claim_C5_header_policy :
    (∀ (rng : List Char) (dc : List (List Char × List Char)),
      read_as_tuples rng dc [] = .ok []) ∧
    (∀ (rng : List Char) (dc : List (List Char × List Char))
       (values : List (List (List Char))) (rows : List (List Value)),
      read_as_tuples rng dc values = .ok rows → rows.length = values.length - 1) ∧
    (∀ (rng : List Char) (dc : List (List Char × List Char))
       (v0 : List (List Char)) (vs : List (List (List Char))) (rows : List (List Value)),
      read_as_tuples rng dc (v0 :: vs) = .ok rows →
      ∃ c2i, resolveOffsets rng dc = .ok c2i ∧
        ∀ (i : Nat) (hi : i < rows.length) (hv : i < vs.length),
          convertRow c2i dc (vs.get ⟨i, hv⟩) = .ok (rows.get ⟨i, hi⟩)) := by
  refine ⟨read_as_tuples_nil, ?_, ?_⟩
  · intro rng dc values rows h
    cases values with
    | nil =>
      rw [read_as_tuples_nil] at h
      injection h with h'
      rw [← h']
      rfl
    | cons v0 vs =>
      unfold read_as_tuples at h
      rw [if_neg (by simp)] at h
      cases hres : resolveOffsets rng dc with
      | error e =>
        rw [hres] at h
        change (Except.error e : Except PyErr (List (List Value))) = .ok rows at h
        exact absurd h (by simp)
      | ok c2i =>
        rw [hres] at h
        change materializeRows c2i dc vs = .ok rows at h
        rw [materializeRows_ok_length h]
        rfl
  · intro rng dc v0 vs rows h
    unfold read_as_tuples at h
    rw [if_neg (by simp)] at h
    cases hres : resolveOffsets rng dc with
    | error e =>
      rw [hres] at h
      change (Except.error e : Except PyErr (List (List Value))) = .ok rows at h
      exact absurd h (by simp)
    | ok c2i =>
      rw [hres] at h
      change materializeRows c2i dc vs = .ok rows at h
      exact ⟨c2i, rfl, materializeRows_ok_get h⟩

/-- The resolved offsets of `"B:E"` for the single requested column `"B"`. -/
theorem resolveOffsets_B_str :
    resolveOffsets "B:E".toList [("B".toList, "str".toList)]
      = .ok [("B".toList, some 0)] := by
  rw [resolveOffsets_ok _
    (by decide : _get_column_range_info "B:E".toList = .ok ("B".toList, "E".toList)), spanBE]
  decide

/-- Witness for claim C5: the empty-result case, and the header-exclusion
count at a two-row fetch (one header and one data row). -/
theorem claim_C5_witness :
    read_as_tuples "B:E".toList [("B".toList, "str".toList)] [] = .ok [] ∧
    [[Value.str "x".toList]].length = [["h".toList], ["x".toList]].length - 1 :=
  ⟨claim_C5_header_policy.1 "B:E".toList [("B".toList, "str".toList)],
   claim_C5_header_policy.2.1 "B:E".toList [("B".toList, "str".toList)]
     [["h".toList], ["x".toList]] [[Value.str "x".toList]]
     (by rw [read_as_tuples_resolved resolveOffsets_B_str]; decide)⟩

/-! ## Inverted ranges (claim C10) -/

/-- A span whose start offset exceeds its end offset enumerates no columns. -/
theorem columns_in_range_empty {s e : List Char}
    (h : _col_letter_to_index e < _col_letter_to_index s) :
    _get_columns_in_range s e = [] := by
  unfold _get_columns_in_range pyRange
  have h0 : (_col_letter_to_index e + 1 - _col_letter_to_index s).toNat = 0 := by omega
  rw [h0]
  rfl

/-- Looking any key up in an all-`None` offset dict gives `None` (or misses). -/
theorem pyDictLookup_all_none {c2i : List (List Char × Option Nat)}
    (h : ∀ q ∈ c2i, q.2 = Option.none) (col : List Char) :
    pyDictLookup c2i col = Option.none ∨ pyDictLookup c2i col = some Option.none := by
  induction c2i with
  | nil => exact Or.inl rfl
  | cons q t ih =>
    rcases q with ⟨k, v⟩
    rw [pyDictLookup]
    by_cases hk : k = col
    · rw [if_pos hk]
      right
      have hv : v = Option.none := h ⟨k, v⟩ (List.mem_cons_self _ _)
      rw [hv]
    · rw [if_neg hk]
      exact ih fun q hq => h q (List.mem_cons_of_mem _ hq)

/-- A cell is `None` whenever its column's lookup is unresolved or missing. -/
theorem rowCell_of_lookup_none_or {c2i : List (List Char × Option Nat)}
    {row : List (List Char)} {col : List Char}
    (h : pyDictLookup c2i col = Option.none ∨ pyDictLookup c2i col = some Option.none) :
    rowCell c2i row col = Option.none := by
  rcases h with h | h
  · unfold rowCell
    rw [h]
  · exact rowCell_unresolved h

/-- With an all-`None` offset dict, every row converts to an all-null tuple. -/
theorem convertRow_all_none {c2i : List (List Char × Option Nat)}
    (h : ∀ q ∈ c2i, q.2 = Option.none) :
    ∀ (dc : List (List Char × List Char)) (row : List (List Char)),
      convertRow c2i dc row = .ok (dc.map fun _ => Value.none) := by
  intro dc
  induction dc with
  | nil => intro row; rfl
  | cons p rest ih =>
    intro row
    rcases p with ⟨col, dtype⟩
    rw [convertRow, rowCell_of_lookup_none_or (pyDictLookup_all_none h col),
      convert_value_none, ih row]
    rfl

/-- Constant per-row conversion materializes to a constant list. -/
theorem materializeRows_const {c2i : List (List Char × Option Nat)}
    {dc : List (List Char × List Char)}
    (h : ∀ row, convertRow c2i dc row = .ok (dc.map fun _ => Value.none)) :
    ∀ l : List (List (List Char)),
      materializeRows c2i dc l = .ok (l.map fun _ => dc.map fun _ => Value.none) := by
  intro l
  induction l with
  | nil => rfl
  | cons row rest ih => rw [materializeRows, h row, ih]; rfl

/-- Claim C10: when the parsed range's start column has a strictly greater
offset than its end column, the enumerated span is empty, every requested
column resolves to the unresolved marker, and the read returns one all-null
tuple per non-header fetched row without raising any error. -/
theorem claim_C10_inverted_range :
    ∀ (rng s e : List Char) (dc : List (List Char × List Char))
      (values : List (List (List Char))),
      _get_column_range_info rng = .ok (s, e) →
      _col_letter_to_index e < _col_letter_to_index s →
      _get_columns_in_range s e = [] ∧
      resolveOffsets rng dc = .ok (dc.map fun p => (p.1, Option.none)) ∧
      read_as_tuples rng dc values
        = .ok (values.tail.map fun _ => dc.map fun _ => Value.none) := by
  intro rng s e dc values hparse hlt
  have hspan := columns_in_range_empty hlt
  have hres : resolveOffsets rng dc = .ok (dc.map fun p => (p.1, Option.none)) := by
    rw [resolveOffsets_ok dc hparse, hspan]
    simp [pyIndexOf]
  refine ⟨hspan, hres, ?_⟩
  have hc2i : ∀ q ∈ dc.map fun p => (p.1, (Option.none : Option Nat)),
      q.2 = Option.none := by
    intro q hq
    rcases List.mem_map.mp hq with ⟨p, _, rfl⟩
    rfl
  cases values with
  | nil => rw [read_as_tuples_nil]; rfl
  | cons v0 vs =>
    rw [read_as_tuples_resolved hres,
      materializeRows_const (convertRow_all_none hc2i dc) vs]
    rfl

/-- Witness for claim C10 at the inverted range `"E:B"` with one requested
column and one data row. -/
theorem claim_C10_witness :
    read_as_tuples "E:B".toList [("B".toList, "int".toList)]
      [["h".toList], ["x".toList]] = .ok [[Value.none]] :=
  (claim_C10_inverted_range "E:B".toList "E".toList "B".toList
    [("B".toList, "int".toList)] [["h".toList], ["x".toList]]
    (by decide) (by decide)).2.2

end GSheet
